import Mathlib

/-!
Verification of the rawslice crate's `SliceIter` (src/iter.rs).

The Rust type `SliceIter<'a, T, Un>` holds a pair of raw pointers
`(ptr, end)` into a borrowed contiguous region of `T`s.  We embed it
shallowly: memory is the borrowed region itself, a `List α`, and the two
pointers become element indices into that list (pointer arithmetic in the
source is always in element strides, via `rawpointer::ptrdistance`,
`post_inc` and `pre_dec`, so indices model it exactly).  The compile-time
unrolling marker `Un : Unroll` with its associated constant `Un::UNROLL`
(false for `UnrollDefault`, true for `Unroll4`) becomes the field `un :
Bool`.  Reads through a pointer (`&*self.ptr`) become `List.getD` at the
corresponding index; under the safety invariant `Wf` (start ≤ end and the
whole range `[start, end)` readable, i.e. inside the region) every such
read is in bounds, so the `getD` default is never relevant in the states
the theorems quantify over.  The `assert!(size_of::<T>() != 0)` in
`SliceIter::new` is modelled by passing `size_of::<T>` as an explicit
`Nat` argument (it is a per-type compile-time constant); a panicking
constructor returns `none`.

Loop termination: the source loops run `while self.ptr != self.end`.
Every constructor establishes `ptr ≤ end` and every step preserves it, so
the condition coincides with `ptr < end`, which is what the Lean
definitions use as the (terminating) guard.
-/

namespace Rawslice

/-- Slice (contiguous data) iterator: `mem` is the borrowed contiguous
region, `ptr` and `ende` are the start/end pointers as element indices
into it, and `un` is `Un::UNROLL` of the unrolling marker type. -/
structure SliceIter (α : Type) where
  mem : List α
  ptr : Nat
  ende : Nat
  un : Bool
deriving Repr, DecidableEq

/-- Safety invariant established by the constructors: `start <= end` and
every address in `[start, end)` is validly readable, i.e. the (possibly
empty) range lies inside the borrowed region.  An empty range (such as
the sentinel default value) reads nothing, so it is well formed at any
address. -/
def SliceIter.Wf (s : SliceIter α) : Prop :=
  s.ptr ≤ s.ende ∧ (s.ptr < s.ende → s.ende ≤ s.mem.length)

instance (s : SliceIter α) : Decidable s.Wf := by
  unfold SliceIter.Wf; infer_instance

/-- Translation of `fn len(&self) -> usize { ptrdistance(self.ptr, self.end) }`;
`ptrdistance` is the pointer difference in element strides. -/
def SliceIter.len (s : SliceIter α) : Nat :=
  s.ende - s.ptr

/-- Read through the front pointer, `&*self.ptr`. -/
def SliceIter.read [Inhabited α] (s : SliceIter α) : α :=
  s.mem.getD s.ptr default

/-- Read through the back pointer after a pre-decrement, `&*self.end.pre_dec()`. -/
def SliceIter.readBack [Inhabited α] (s : SliceIter α) : α :=
  s.mem.getD (s.ende - 1) default

/-- Advance the front pointer by one stride (the `post_inc` effect). -/
def SliceIter.stepf (s : SliceIter α) : SliceIter α :=
  { s with ptr := s.ptr + 1 }

/-- Retreat the back pointer by one stride (the `pre_dec` effect). -/
def SliceIter.stepb (s : SliceIter α) : SliceIter α :=
  { s with ende := s.ende - 1 }

/-- Translation of `Iterator::next`: if `self.ptr != self.end`, read then
post-increment; otherwise `None`.  Returns the yielded element together
with the mutated iterator. -/
def SliceIter.next [Inhabited α] (s : SliceIter α) : Option α × SliceIter α :=
  if s.ptr ≠ s.ende then (some s.read, s.stepf) else (none, s)

/-- Translation of `DoubleEndedIterator::next_back`: if `self.ptr != self.end`,
pre-decrement `end` then read; otherwise `None`. -/
def SliceIter.next_back [Inhabited α] (s : SliceIter α) : Option α × SliceIter α :=
  if s.ptr ≠ s.ende then (some s.readBack, s.stepb) else (none, s)

/-- Translation of `peek_next`: read through `ptr` without advancing. -/
def SliceIter.peek_next [Inhabited α] (s : SliceIter α) : Option α :=
  if s.ptr ≠ s.ende then some s.read else none

/-- Translation of `as_slice`: the remaining region `[ptr, end)` as a slice,
`slice::from_raw_parts(self.ptr, self.len())`. -/
def SliceIter.as_slice (s : SliceIter α) : List α :=
  (s.mem.drop s.ptr).take s.len

/-- Translation of `Index<usize>`: `assert!(i < self.len())` then
`get_unchecked(i)`, which reads `*self.ptr.add(i)`.  The panic on a failed
assert is modelled as `none`. -/
def SliceIter.index [Inhabited α] (s : SliceIter α) (i : Nat) : Option α :=
  if i < s.len then some (s.mem.getD (s.ptr + i) default) else none

/-- Translation of `SliceIter::new(start, end)` with the
`assert!(size_of::<T>() != 0)` modelled by the explicit `sizeOfT` argument:
the panic is `none`.  The `un` of the produced iterator is the `Un` type
parameter; `new` is available at every `Un`. -/
def SliceIter.new (sizeOfT : Nat) (mem : List α) (start ende : Nat) (un : Bool) :
    Option (SliceIter α) :=
  if sizeOfT = 0 then none else some ⟨mem, start, ende, un⟩

/-- Translation of `From<&'a [T]> for SliceIter<'a, T>`: `ptr` is the
slice's base, `end = ptr.add(slice.len())`, and `Un = UnrollDefault`
(so `un = false`).  A slice is its contents, with base address 0. -/
def fromSlice (sizeOfT : Nat) (l : List α) : Option (SliceIter α) :=
  SliceIter.new sizeOfT l 0 (0 + l.length) false

/-- Translation of `unrolled(self)`: the same pointer range reinterpreted
at `Un = Unroll4`. -/
def SliceIter.unrolled (s : SliceIter α) : SliceIter α :=
  { s with un := true }

/-- Translation of `Default for SliceIter<'a, T, Un>`:
`SliceIter::new(0x1 as *const T, 0x1 as *const T)` — an empty iterator at
the non-null sentinel address 1, aliasing no real memory. -/
def SliceIter.defaultValue (un : Bool) : SliceIter α :=
  ⟨[], 1, 1, un⟩

/-- Translation of the crate-private `enum FoldWhile<T>`. -/
inductive FoldWhile (β : Type) where
  | Continue : β → FoldWhile β
  | Done : β → FoldWhile β
deriving Repr, DecidableEq

/-- Scalar tail loop of `fold_while`:
`while self.ptr != self.end { accum = fold_while!(g(accum, &*self.ptr.post_inc())) }`.
A `Done` returns immediately; the `post_inc` has already happened, so the
iterator state at an early exit has consumed the element just tested. -/
def fold_while_scalar [Inhabited α] (g : A → α → FoldWhile A)
    (s : SliceIter α) (accum : A) : A × SliceIter α :=
  if h : s.ptr < s.ende then
    match g accum s.read with
    | .Done d => (d, s.stepf)
    | .Continue a => fold_while_scalar g s.stepf a
  else (accum, s)
termination_by s.ende - s.ptr
decreasing_by simp [SliceIter.stepf]; omega

/-- Unrolled head loop of `fold_while`:
`while Un::UNROLL && self.len() >= 4 { ...four unrolled steps... }`,
falling through to the scalar loop.  Each of the four sub-steps checks
for `Done` individually (the `fold_while!` macro returns from the
function), with the post-increment already applied. -/
def fold_while_unrolled [Inhabited α] (un : Bool) (g : A → α → FoldWhile A)
    (s : SliceIter α) (accum : A) : A × SliceIter α :=
  if h : un = true ∧ 4 ≤ s.len then
    match g accum s.read with
    | .Done d => (d, s.stepf)
    | .Continue a1 =>
      match g a1 s.stepf.read with
      | .Done d => (d, s.stepf.stepf)
      | .Continue a2 =>
        match g a2 s.stepf.stepf.read with
        | .Done d => (d, s.stepf.stepf.stepf)
        | .Continue a3 =>
          match g a3 s.stepf.stepf.stepf.read with
          | .Done d => (d, s.stepf.stepf.stepf.stepf)
          | .Continue a4 =>
            fold_while_unrolled un g s.stepf.stepf.stepf.stepf a4
  else fold_while_scalar g s accum
termination_by s.ende - s.ptr
decreasing_by simp [SliceIter.stepf, SliceIter.len] at *; omega

/-- Translation of `FoldWhileExt::fold_while` for `SliceIter<'a, T, Un>`:
the unrolled head loop (guarded by `Un::UNROLL`, i.e. `s.un`) followed by
the scalar tail loop. -/
def fold_while [Inhabited α] (s : SliceIter α) (init : A)
    (g : A → α → FoldWhile A) : A × SliceIter α :=
  fold_while_unrolled s.un g s init

/-- Scalar tail loop of `rfold_while`:
`while self.ptr != self.end { accum = fold_while!(g(accum, &*self.end.pre_dec())) }`. -/
def rfold_while_scalar [Inhabited α] (g : A → α → FoldWhile A)
    (s : SliceIter α) (accum : A) : A × SliceIter α :=
  if h : s.ptr < s.ende then
    match g accum s.readBack with
    | .Done d => (d, s.stepb)
    | .Continue a => rfold_while_scalar g s.stepb a
  else (accum, s)
termination_by s.ende - s.ptr
decreasing_by simp [SliceIter.stepb]; omega

/-- Unrolled head loop of `rfold_while`, four `pre_dec` steps per
iteration while `Un::UNROLL && self.len() >= 4`. -/
def rfold_while_unrolled [Inhabited α] (un : Bool) (g : A → α → FoldWhile A)
    (s : SliceIter α) (accum : A) : A × SliceIter α :=
  if h : un = true ∧ 4 ≤ s.len then
    match g accum s.readBack with
    | .Done d => (d, s.stepb)
    | .Continue a1 =>
      match g a1 s.stepb.readBack with
      | .Done d => (d, s.stepb.stepb)
      | .Continue a2 =>
        match g a2 s.stepb.stepb.readBack with
        | .Done d => (d, s.stepb.stepb.stepb)
        | .Continue a3 =>
          match g a3 s.stepb.stepb.stepb.readBack with
          | .Done d => (d, s.stepb.stepb.stepb.stepb)
          | .Continue a4 =>
            rfold_while_unrolled un g s.stepb.stepb.stepb.stepb a4
  else rfold_while_scalar g s accum
termination_by s.ende - s.ptr
decreasing_by simp [SliceIter.stepb, SliceIter.len] at *; omega

/-- Translation of `FoldWhileExt::rfold_while` for `SliceIter<'a, T, Un>`. -/
def rfold_while [Inhabited α] (s : SliceIter α) (accum : A)
    (g : A → α → FoldWhile A) : A × SliceIter α :=
  rfold_while_unrolled s.un g s accum

/-- Translation of `Iterator::all` for `SliceIter`: fold-while with
accumulator `true`, `Continue(true)` on a satisfied predicate,
`Done(false)` otherwise. -/
def SliceIter.all [Inhabited α] (s : SliceIter α) (predicate : α → Bool) :
    Bool × SliceIter α :=
  fold_while s true (fun _ elt =>
    if predicate elt then .Continue true else .Done false)

/-- Translation of `Iterator::any` for `SliceIter`: `!self.all(|x| !predicate(x))`. -/
def SliceIter.any [Inhabited α] (s : SliceIter α) (predicate : α → Bool) :
    Bool × SliceIter α :=
  let r := s.all (fun x => !predicate x)
  (!r.1, r.2)

/-- Translation of `Iterator::find` for `SliceIter`: fold-while with
accumulator `None`, `Done(Some(elt))` on the first match. -/
def SliceIter.find [Inhabited α] (s : SliceIter α) (predicate : α → Bool) :
    Option α × SliceIter α :=
  fold_while s none (fun _ elt =>
    if predicate elt then .Done (some elt) else .Continue none)

/-- Translation of `Iterator::position` for `SliceIter`: the closure's
captured mutable `index` (starting at 0, incremented on each non-match)
is threaded as the second component of the accumulator. -/
def SliceIter.position [Inhabited α] (s : SliceIter α) (predicate : α → Bool) :
    Option Nat × SliceIter α :=
  let r := fold_while s ((none : Option Nat), 0) (fun acc elt =>
    if predicate elt then FoldWhile.Done (some acc.2, acc.2)
    else FoldWhile.Continue (none, acc.2 + 1))
  (r.1.1, r.2)

/-- Translation of `Iterator::rposition` for `SliceIter`: backward
fold-while; the closure's captured mutable `index` starts at `self.len()`
and is decremented before each test. -/
def SliceIter.rposition [Inhabited α] (s : SliceIter α) (predicate : α → Bool) :
    Option Nat × SliceIter α :=
  let r := rfold_while s ((none : Option Nat), s.len) (fun acc elt =>
    let index := acc.2 - 1
    if predicate elt then FoldWhile.Done (some index, index)
    else FoldWhile.Continue (none, index))
  (r.1.1, r.2)

/-! Basic lemmas about the iterator state. -/

theorem SliceIter.as_slice_eq_nil {s : SliceIter α} (h : s.ende ≤ s.ptr) :
    s.as_slice = [] := by
  simp [SliceIter.as_slice, SliceIter.len, Nat.sub_eq_zero_of_le h]

theorem SliceIter.as_slice_length {s : SliceIter α} (hw : s.Wf) :
    s.as_slice.length = s.len := by
  obtain ⟨h1, h2⟩ := hw
  by_cases hlt : s.ptr < s.ende
  · have := h2 hlt
    simp [SliceIter.as_slice, SliceIter.len]
    omega
  · simp [SliceIter.as_slice, SliceIter.len]
    omega

theorem SliceIter.read_eq [Inhabited α] {s : SliceIter α}
    (h1 : s.ptr < s.ende) (h2 : s.ende ≤ s.mem.length) :
    s.read = s.mem.get ⟨s.ptr, by omega⟩ := by
  simp [SliceIter.read, List.getD_eq_getElem?_getD,
    List.getElem?_eq_getElem (show s.ptr < s.mem.length by omega)]

theorem SliceIter.readBack_eq [Inhabited α] {s : SliceIter α}
    (h1 : s.ptr < s.ende) (h2 : s.ende ≤ s.mem.length) :
    s.readBack = s.mem.get ⟨s.ende - 1, by omega⟩ := by
  simp [SliceIter.readBack, List.getD_eq_getElem?_getD,
    List.getElem?_eq_getElem (show s.ende - 1 < s.mem.length by omega)]

theorem SliceIter.as_slice_cons [Inhabited α] {s : SliceIter α}
    (h1 : s.ptr < s.ende) (h2 : s.ende ≤ s.mem.length) :
    s.as_slice = s.read :: s.stepf.as_slice := by
  have hp : s.ptr < s.mem.length := by omega
  rw [SliceIter.read_eq h1 h2]
  simp only [SliceIter.as_slice, SliceIter.len, SliceIter.stepf]
  rw [List.drop_eq_getElem_cons hp]
  have he : s.ende - s.ptr = (s.ende - (s.ptr + 1)) + 1 := by omega
  rw [he, List.take_succ_cons, List.get_eq_getElem]

theorem SliceIter.as_slice_snoc [Inhabited α] {s : SliceIter α}
    (h1 : s.ptr < s.ende) (h2 : s.ende ≤ s.mem.length) :
    s.as_slice = s.stepb.as_slice ++ [s.readBack] := by
  rw [SliceIter.readBack_eq h1 h2]
  simp only [SliceIter.as_slice, SliceIter.len, SliceIter.stepb]
  have he : s.ende - s.ptr = (s.ende - 1 - s.ptr) + 1 := by omega
  rw [he, List.take_succ]
  congr 1
  have hq : s.ptr + (s.ende - 1 - s.ptr) = s.ende - 1 := by omega
  rw [List.getElem?_drop, hq,
    List.getElem?_eq_getElem (show s.ende - 1 < s.mem.length by omega)]
  rfl

/-! Trusted reference layer: a straightforward, unoptimized fold over a
list, and the naive scans the spec compares against. -/

/-- Reference fold-with-early-exit over a plain list, one element at a
time, left to right. -/
def listFoldWhile (g : A → α → FoldWhile A) : List α → A → A
  | [], a => a
  | x :: xs, a =>
    match g a x with
    | .Done d => d
    | .Continue a2 => listFoldWhile g xs a2

/-- Naive left-to-right scan for `all`. -/
def scanAll (p : α → Bool) : List α → Bool
  | [] => true
  | x :: xs => p x && scanAll p xs

/-- Naive left-to-right scan for `any`. -/
def scanAny (p : α → Bool) : List α → Bool
  | [] => false
  | x :: xs => p x || scanAny p xs

/-- Naive left-to-right scan for `find`. -/
def scanFind (p : α → Bool) : List α → Option α
  | [] => none
  | x :: xs => if p x then some x else scanFind p xs

/-- Naive left-to-right scan for `position`, counting from `i`. -/
def scanPositionFrom (p : α → Bool) (i : Nat) : List α → Option Nat
  | [] => none
  | x :: xs => if p x then some i else scanPositionFrom p (i + 1) xs

/-- Naive left-to-right scan for `position`. -/
def scanPosition (p : α → Bool) (l : List α) : Option Nat :=
  scanPositionFrom p 0 l

/-- Naive right-to-left scan for `rposition`: the suffix is searched
first, and a hit there wins over the head; indices are reported in
forward orientation. -/
def scanRposition (p : α → Bool) : List α → Option Nat
  | [] => none
  | x :: xs =>
    match scanRposition p xs with
    | some i => some (i + 1)
    | none => if p x then some 0 else none

/-! Correspondence of the scalar loops with the reference list fold. -/

theorem fold_while_scalar_eq_list [Inhabited α] (g : A → α → FoldWhile A)
    (s : SliceIter α) (a : A) (hw : s.ptr < s.ende → s.ende ≤ s.mem.length) :
    (fold_while_scalar g s a).1 = listFoldWhile g s.as_slice a := by
  generalize hn : s.ende - s.ptr = n
  induction n generalizing s a with
  | zero =>
    rw [fold_while_scalar, dif_neg (by omega), SliceIter.as_slice_eq_nil (by omega)]
    rfl
  | succ n ih =>
    have h1 : s.ptr < s.ende := by omega
    rw [fold_while_scalar, dif_pos h1, SliceIter.as_slice_cons h1 (hw h1)]
    cases hg : g a s.read with
    | Done d => simp [listFoldWhile, hg]
    | Continue a2 =>
      simp only [listFoldWhile, hg]
      exact ih s.stepf a2 (fun _ => by simp [SliceIter.stepf]; exact hw h1)
        (by simp [SliceIter.stepf]; omega)

theorem rfold_while_scalar_eq_list [Inhabited α] (g : A → α → FoldWhile A)
    (s : SliceIter α) (a : A) (hw : s.ptr < s.ende → s.ende ≤ s.mem.length) :
    (rfold_while_scalar g s a).1 = listFoldWhile g s.as_slice.reverse a := by
  generalize hn : s.ende - s.ptr = n
  induction n generalizing s a with
  | zero =>
    rw [rfold_while_scalar, dif_neg (by omega), SliceIter.as_slice_eq_nil (by omega)]
    rfl
  | succ n ih =>
    have h1 : s.ptr < s.ende := by omega
    rw [rfold_while_scalar, dif_pos h1, SliceIter.as_slice_snoc h1 (hw h1),
      List.reverse_append]
    cases hg : g a s.readBack with
    | Done d => simp [listFoldWhile, hg]
    | Continue a2 =>
      simp only [List.reverse_cons, List.reverse_nil, List.nil_append,
        List.cons_append, listFoldWhile, hg]
      exact ih s.stepb a2
        (fun _ => by simp [SliceIter.stepb] at *; have := hw h1; omega)
        (by simp [SliceIter.stepb]; omega)

/-! Unrolling transparency at the level of the fold engine: the 4-wide
head loop followed by the scalar tail computes exactly what the scalar
loop alone computes — the same value and the same final iterator state. -/

theorem fold_while_unrolled_eq_scalar [Inhabited α] (un : Bool)
    (g : A → α → FoldWhile A) (s : SliceIter α) (a : A) :
    fold_while_unrolled un g s a = fold_while_scalar g s a := by
  generalize hn : s.ende - s.ptr = n
  induction n using Nat.strong_induction_on generalizing s a with
  | _ n ih =>
  by_cases hc : un = true ∧ 4 ≤ s.len
  · have hl : 4 ≤ s.ende - s.ptr := by
      have := hc.2; simpa [SliceIter.len] using this
    have h1 : s.ptr < s.ende := by omega
    have h2 : s.stepf.ptr < s.stepf.ende := by simp [SliceIter.stepf]; omega
    have h3 : s.stepf.stepf.ptr < s.stepf.stepf.ende := by
      simp [SliceIter.stepf]; omega
    have h4 : s.stepf.stepf.stepf.ptr < s.stepf.stepf.stepf.ende := by
      simp [SliceIter.stepf]; omega
    rw [fold_while_unrolled, dif_pos hc, fold_while_scalar, dif_pos h1]
    cases hg1 : g a s.read with
    | Done d => rfl
    | Continue a1 =>
      dsimp only
      rw [fold_while_scalar, dif_pos h2]
      cases hg2 : g a1 s.stepf.read with
      | Done d => rfl
      | Continue a2 =>
        dsimp only
        rw [fold_while_scalar, dif_pos h3]
        cases hg3 : g a2 s.stepf.stepf.read with
        | Done d => rfl
        | Continue a3 =>
          dsimp only
          rw [fold_while_scalar, dif_pos h4]
          cases hg4 : g a3 s.stepf.stepf.stepf.read with
          | Done d => rfl
          | Continue a4 =>
            exact ih (n - 4) (by omega) s.stepf.stepf.stepf.stepf a4
              (by simp [SliceIter.stepf]; omega)
  · rw [fold_while_unrolled, dif_neg hc]

theorem rfold_while_unrolled_eq_scalar [Inhabited α] (un : Bool)
    (g : A → α → FoldWhile A) (s : SliceIter α) (a : A) :
    rfold_while_unrolled un g s a = rfold_while_scalar g s a := by
  generalize hn : s.ende - s.ptr = n
  induction n using Nat.strong_induction_on generalizing s a with
  | _ n ih =>
  by_cases hc : un = true ∧ 4 ≤ s.len
  · have hl : 4 ≤ s.ende - s.ptr := by
      have := hc.2; simpa [SliceIter.len] using this
    have h1 : s.ptr < s.ende := by omega
    have h2 : s.stepb.ptr < s.stepb.ende := by simp [SliceIter.stepb]; omega
    have h3 : s.stepb.stepb.ptr < s.stepb.stepb.ende := by
      simp [SliceIter.stepb]; omega
    have h4 : s.stepb.stepb.stepb.ptr < s.stepb.stepb.stepb.ende := by
      simp [SliceIter.stepb]; omega
    rw [rfold_while_unrolled, dif_pos hc, rfold_while_scalar, dif_pos h1]
    cases hg1 : g a s.readBack with
    | Done d => rfl
    | Continue a1 =>
      dsimp only
      rw [rfold_while_scalar, dif_pos h2]
      cases hg2 : g a1 s.stepb.readBack with
      | Done d => rfl
      | Continue a2 =>
        dsimp only
        rw [rfold_while_scalar, dif_pos h3]
        cases hg3 : g a2 s.stepb.stepb.readBack with
        | Done d => rfl
        | Continue a3 =>
          dsimp only
          rw [rfold_while_scalar, dif_pos h4]
          cases hg4 : g a3 s.stepb.stepb.stepb.readBack with
          | Done d => rfl
          | Continue a4 =>
            exact ih (n - 4) (by omega) s.stepb.stepb.stepb.stepb a4
              (by simp [SliceIter.stepb]; omega)
  · rw [rfold_while_unrolled, dif_neg hc]

theorem fold_while_eq_scalar [Inhabited α] (s : SliceIter α) (init : A)
    (g : A → α → FoldWhile A) :
    fold_while s init g = fold_while_scalar g s init :=
  fold_while_unrolled_eq_scalar s.un g s init

theorem rfold_while_eq_scalar [Inhabited α] (s : SliceIter α) (accum : A)
    (g : A → α → FoldWhile A) :
    rfold_while s accum g = rfold_while_scalar g s accum :=
  rfold_while_unrolled_eq_scalar s.un g s accum

/-! Each derived operation's step closure, applied through the reference
list fold, computes the corresponding naive scan. -/

theorem listFoldWhile_all (p : α → Bool) (l : List α) :
    listFoldWhile (fun _ elt =>
        if p elt then FoldWhile.Continue true else FoldWhile.Done false) l true
      = scanAll p l := by
  induction l with
  | nil => rfl
  | cons x xs ih =>
    by_cases hx : p x <;> simp [listFoldWhile, scanAll, hx, ih]

theorem listFoldWhile_find (p : α → Bool) (l : List α) :
    listFoldWhile (fun _ elt =>
        if p elt then FoldWhile.Done (some elt) else FoldWhile.Continue none)
        l none
      = scanFind p l := by
  induction l with
  | nil => rfl
  | cons x xs ih =>
    by_cases hx : p x <;> simp [listFoldWhile, scanFind, hx, ih]

theorem listFoldWhile_position (p : α → Bool) (l : List α) (i : Nat) :
    (listFoldWhile (fun acc elt =>
        if p elt then FoldWhile.Done (some acc.2, acc.2)
        else FoldWhile.Continue (none, acc.2 + 1)) l ((none : Option Nat), i)).1
      = scanPositionFrom p i l := by
  induction l generalizing i with
  | nil => rfl
  | cons x xs ih =>
    by_cases hx : p x <;> simp [listFoldWhile, scanPositionFrom, hx, ih]

theorem scanAny_eq_not_scanAll (p : α → Bool) (l : List α) :
    scanAny p l = !scanAll (fun x => !p x) l := by
  induction l with
  | nil => rfl
  | cons x xs ih => by_cases hx : p x <;> simp [scanAny, scanAll, hx, ih]

theorem scanRposition_concat (p : α → Bool) (ys : List α) (x : α) :
    scanRposition p (ys ++ [x])
      = if p x then some ys.length else scanRposition p ys := by
  induction ys with
  | nil => by_cases hx : p x <;> simp [scanRposition, hx]
  | cons y ys ih =>
    by_cases hx : p x
    · simp [scanRposition, ih, hx]
    · simp only [List.cons_append, scanRposition]
      rw [show ys.append [x] = ys ++ [x] from rfl, ih]
      simp [hx]

theorem listFoldWhile_rposition (p : α → Bool) (l : List α) (n : Nat)
    (hn : l.length ≤ n) :
    (listFoldWhile (fun acc elt =>
        let index := acc.2 - 1
        if p elt then FoldWhile.Done (some index, index)
        else FoldWhile.Continue (none, index)) l.reverse ((none : Option Nat), n)).1
      = (scanRposition p l).map (fun i => i + (n - l.length)) := by
  induction l using List.reverseRecOn generalizing n with
  | nil => simp [listFoldWhile, scanRposition]
  | append_singleton ys x ih =>
    have hys : ys.length + 1 ≤ n := by simpa using hn
    rw [List.reverse_append, List.reverse_singleton, List.singleton_append,
      scanRposition_concat]
    by_cases hx : p x
    · simp only [listFoldWhile, if_pos hx, if_pos hx, Option.map]
      simp only [List.length_append, List.length_singleton]
      congr 1
      omega
    · simp only [listFoldWhile, if_neg hx, if_neg hx]
      rw [ih (n - 1) (by omega)]
      cases scanRposition p ys with
      | none => rfl
      | some i =>
        simp only [Option.map, Option.some.injEq,
          List.length_append, List.length_singleton]
        omega

/-! Operation-level correspondence with the naive scans, for any
well-formed iterator state (any sub-slice at any offset, under either
unrolling strategy). -/

theorem SliceIter.all_fst [Inhabited α] (s : SliceIter α) (p : α → Bool)
    (hw : s.Wf) : (s.all p).1 = scanAll p s.as_slice := by
  unfold SliceIter.all
  rw [fold_while_eq_scalar, fold_while_scalar_eq_list _ _ _ hw.2,
    listFoldWhile_all]

theorem SliceIter.any_fst [Inhabited α] (s : SliceIter α) (p : α → Bool)
    (hw : s.Wf) : (s.any p).1 = scanAny p s.as_slice := by
  unfold SliceIter.any
  rw [scanAny_eq_not_scanAll]
  simp only
  rw [SliceIter.all_fst _ _ hw]

theorem SliceIter.find_fst [Inhabited α] (s : SliceIter α) (p : α → Bool)
    (hw : s.Wf) : (s.find p).1 = scanFind p s.as_slice := by
  unfold SliceIter.find
  rw [fold_while_eq_scalar, fold_while_scalar_eq_list _ _ _ hw.2,
    listFoldWhile_find]

theorem SliceIter.position_fst [Inhabited α] (s : SliceIter α) (p : α → Bool)
    (hw : s.Wf) : (s.position p).1 = scanPosition p s.as_slice := by
  unfold SliceIter.position scanPosition
  simp only
  rw [fold_while_eq_scalar, fold_while_scalar_eq_list _ _ _ hw.2,
    listFoldWhile_position]

theorem SliceIter.rposition_fst [Inhabited α] (s : SliceIter α) (p : α → Bool)
    (hw : s.Wf) : (s.rposition p).1 = scanRposition p s.as_slice := by
  unfold SliceIter.rposition
  simp only
  rw [rfold_while_eq_scalar, rfold_while_scalar_eq_list _ _ _ hw.2]
  have hlen : s.as_slice.length = s.len := SliceIter.as_slice_length hw
  rw [show s.len = s.as_slice.length from hlen.symm,
    listFoldWhile_rposition p s.as_slice s.as_slice.length le_rfl]
  cases scanRposition p s.as_slice <;> simp

/-! The scalar loops never look at the `un` field of the state, so the
value they compute depends only on the pointer range and the memory. -/

theorem fold_while_scalar_fst_congr [Inhabited α] (g : A → α → FoldWhile A)
    (mem : List α) (ptr ende : Nat) (u1 u2 : Bool) (a : A) :
    (fold_while_scalar g ⟨mem, ptr, ende, u1⟩ a).1
      = (fold_while_scalar g ⟨mem, ptr, ende, u2⟩ a).1 := by
  generalize hn : ende - ptr = n
  induction n generalizing ptr a with
  | zero =>
    rw [fold_while_scalar, fold_while_scalar, dif_neg (by simp; omega),
      dif_neg (by simp; omega)]
  | succ n ih =>
    have h1 : ptr < ende := by omega
    rw [fold_while_scalar, fold_while_scalar, dif_pos (by simpa using h1),
      dif_pos (by simpa using h1)]
    dsimp only [SliceIter.read, SliceIter.stepf]
    cases hg : g a (mem.getD ptr default) with
    | Done d => rfl
    | Continue a2 => exact ih (ptr + 1) a2 (by omega)

theorem rfold_while_scalar_fst_congr [Inhabited α] (g : A → α → FoldWhile A)
    (mem : List α) (ptr ende : Nat) (u1 u2 : Bool) (a : A) :
    (rfold_while_scalar g ⟨mem, ptr, ende, u1⟩ a).1
      = (rfold_while_scalar g ⟨mem, ptr, ende, u2⟩ a).1 := by
  generalize hn : ende - ptr = n
  induction n generalizing ende a with
  | zero =>
    rw [rfold_while_scalar, rfold_while_scalar, dif_neg (by simp; omega),
      dif_neg (by simp; omega)]
  | succ n ih =>
    have h1 : ptr < ende := by omega
    rw [rfold_while_scalar, rfold_while_scalar, dif_pos (by simpa using h1),
      dif_pos (by simpa using h1)]
    dsimp only [SliceIter.readBack, SliceIter.stepb]
    cases hg : g a (mem.getD (ende - 1) default) with
    | Done d => rfl
    | Continue a2 => exact ih (ende - 1) a2 (by omega)

/-! Characterization of the naive right-to-left scan: it reports the
forward-orientation index of the last match. -/

theorem scanRposition_none [Inhabited α] (p : α → Bool) (l : List α)
    (h : scanRposition p l = none) :
    ∀ j, j < l.length → p (l.getD j default) = false := by
  induction l with
  | nil => intro j hj; simp at hj
  | cons x xs ih =>
    intro j hj
    cases hs : scanRposition p xs with
    | some k => rw [scanRposition, hs] at h; simp at h
    | none =>
      rw [scanRposition, hs] at h
      have hx : p x = false := by
        by_cases hpx : p x <;> simp [hpx] at h <;> simp [hpx]
      cases j with
      | zero => simpa using hx
      | succ j => simpa using ih hs j (by simpa using hj)

theorem scanRposition_some [Inhabited α] (p : α → Bool) (l : List α) (i : Nat)
    (h : scanRposition p l = some i) :
    i < l.length ∧ p (l.getD i default) = true ∧
      ∀ j, i < j → j < l.length → p (l.getD j default) = false := by
  induction l generalizing i with
  | nil => simp [scanRposition] at h
  | cons x xs ih =>
    cases hs : scanRposition p xs with
    | some k =>
      rw [scanRposition, hs] at h
      obtain rfl : k + 1 = i := by simpa using h
      obtain ⟨hk1, hk2, hk3⟩ := ih k hs
      refine ⟨by simpa using hk1, by simpa using hk2, ?_⟩
      intro j hij hj
      cases j with
      | zero => omega
      | succ j => simpa using hk3 j (by omega) (by simpa using hj)
    | none =>
      rw [scanRposition, hs] at h
      have hx : p x = true := by
        by_cases hpx : p x <;> simp [hpx] at h <;> simp [hpx]
      obtain rfl : 0 = i := by rw [if_pos hx] at h; simpa using h
      refine ⟨by simp, by simpa using hx, ?_⟩
      intro j hij hj
      cases j with
      | zero => omega
      | succ j => simpa using scanRposition_none p xs hs j (by simpa using hj)

/-! State of the iterator after an early exit of `position`: exactly the
visited elements have been consumed. -/

theorem fold_while_scalar_position_state [Inhabited α] (p : α → Bool) :
    ∀ n (s : SliceIter α), s.ende - s.ptr = n → ∀ j i,
      (fold_while_scalar (fun acc elt =>
          if p elt then FoldWhile.Done (some acc.2, acc.2)
          else FoldWhile.Continue (none, acc.2 + 1)) s ((none : Option Nat), j)).1.1
        = some i →
      j ≤ i ∧ (fold_while_scalar (fun acc elt =>
          if p elt then FoldWhile.Done (some acc.2, acc.2)
          else FoldWhile.Continue (none, acc.2 + 1)) s ((none : Option Nat), j)).2.len
          + (i - j + 1) = s.len := by
  intro n
  induction n with
  | zero =>
    intro s hn j i h
    rw [fold_while_scalar, dif_neg (by omega)] at h
    simp at h
  | succ n ih =>
    intro s hn j i h
    have h1 : s.ptr < s.ende := by omega
    rw [fold_while_scalar, dif_pos h1] at h ⊢
    by_cases hp : p s.read
    · simp only [if_pos hp] at h ⊢
      obtain rfl : j = i := by simpa using h
      refine ⟨le_rfl, ?_⟩
      simp [SliceIter.len, SliceIter.stepf]
      omega
    · simp only [if_neg hp] at h ⊢
      obtain ⟨hji, hst⟩ :=
        ih s.stepf (by simp [SliceIter.stepf]; omega) (j + 1) i h
      refine ⟨by omega, ?_⟩
      have hl : s.len = s.stepf.len + 1 := by
        simp [SliceIter.len, SliceIter.stepf]; omega
      omega

/-! Folds over an exhausted range return the initial accumulator and
leave the state untouched. -/

theorem fold_while_empty [Inhabited α] (s : SliceIter α) (h : s.ende ≤ s.ptr)
    (a : A) (g : A → α → FoldWhile A) : fold_while s a g = (a, s) := by
  rw [fold_while_eq_scalar, fold_while_scalar, dif_neg (by omega)]

theorem rfold_while_empty [Inhabited α] (s : SliceIter α) (h : s.ende ≤ s.ptr)
    (a : A) (g : A → α → FoldWhile A) : rfold_while s a g = (a, s) := by
  rw [rfold_while_eq_scalar, rfold_while_scalar, dif_neg (by omega)]

/-! Claims. -/

/-- C1: for every finite sequence (including the empty one), every
sub-slice of it (any well-formed pointer range, under either unrolling
strategy), and every predicate, `find`, `position`, `rposition`, `all`
and `any` computed by `SliceIter` equal the corresponding straightforward
unoptimized left-to-right scan (right-to-left for `rposition`) over the
remaining data. -/
theorem claim1_reference_scan_equivalence [Inhabited α] (s : SliceIter α)
    (p : α → Bool) (hw : s.Wf) :
    (s.find p).1 = scanFind p s.as_slice ∧
    (s.position p).1 = scanPosition p s.as_slice ∧
    (s.rposition p).1 = scanRposition p s.as_slice ∧
    (s.all p).1 = scanAll p s.as_slice ∧
    (s.any p).1 = scanAny p s.as_slice :=
  ⟨s.find_fst p hw, s.position_fst p hw, s.rposition_fst p hw,
    s.all_fst p hw, s.any_fst p hw⟩

/-- Witness for C1 at a concrete sub-slice (offset 1, end 7 of an
8-element buffer) under the 4-wide strategy. -/
theorem claim1_witness :
    (⟨[9, 2, 4, 6, 8, 3, 5, 7], 1, 7, true⟩ : SliceIter Nat).Wf ∧
    (((⟨[9, 2, 4, 6, 8, 3, 5, 7], 1, 7, true⟩ : SliceIter Nat).find
          (fun x => x % 2 == 1)).1
        = scanFind (fun x => x % 2 == 1)
            (⟨[9, 2, 4, 6, 8, 3, 5, 7], 1, 7, true⟩ : SliceIter Nat).as_slice ∧
      ((⟨[9, 2, 4, 6, 8, 3, 5, 7], 1, 7, true⟩ : SliceIter Nat).position
          (fun x => x % 2 == 1)).1
        = scanPosition (fun x => x % 2 == 1)
            (⟨[9, 2, 4, 6, 8, 3, 5, 7], 1, 7, true⟩ : SliceIter Nat).as_slice ∧
      ((⟨[9, 2, 4, 6, 8, 3, 5, 7], 1, 7, true⟩ : SliceIter Nat).rposition
          (fun x => x % 2 == 1)).1
        = scanRposition (fun x => x % 2 == 1)
            (⟨[9, 2, 4, 6, 8, 3, 5, 7], 1, 7, true⟩ : SliceIter Nat).as_slice ∧
      ((⟨[9, 2, 4, 6, 8, 3, 5, 7], 1, 7, true⟩ : SliceIter Nat).all
          (fun x => x % 2 == 1)).1
        = scanAll (fun x => x % 2 == 1)
            (⟨[9, 2, 4, 6, 8, 3, 5, 7], 1, 7, true⟩ : SliceIter Nat).as_slice ∧
      ((⟨[9, 2, 4, 6, 8, 3, 5, 7], 1, 7, true⟩ : SliceIter Nat).any
          (fun x => x % 2 == 1)).1
        = scanAny (fun x => x % 2 == 1)
            (⟨[9, 2, 4, 6, 8, 3, 5, 7], 1, 7, true⟩ : SliceIter Nat).as_slice) :=
  ⟨by decide, claim1_reference_scan_equivalence _ _ (by decide)⟩

/-- C2: for every iterator state and every predicate, each of `all`,
`any`, `find`, `position` and `rposition` returns the identical result
under the 1-wide (`UnrollDefault`) strategy and under the 4-wide
(`Unroll4`) strategy obtained via `unrolled()`. -/
theorem claim2_unrolling_transparency [Inhabited α] (s : SliceIter α)
    (p : α → Bool) :
    (s.unrolled.all p).1 = (({ s with un := false } : SliceIter α).all p).1 ∧
    (s.unrolled.any p).1 = (({ s with un := false } : SliceIter α).any p).1 ∧
    (s.unrolled.find p).1 = (({ s with un := false } : SliceIter α).find p).1 ∧
    (s.unrolled.position p).1
      = (({ s with un := false } : SliceIter α).position p).1 ∧
    (s.unrolled.rposition p).1
      = (({ s with un := false } : SliceIter α).rposition p).1 := by
  obtain ⟨m, a, b, u⟩ := s
  refine ⟨?_, ?_, ?_, ?_, ?_⟩
  · show (SliceIter.all ⟨m, a, b, true⟩ p).1 = (SliceIter.all ⟨m, a, b, false⟩ p).1
    unfold SliceIter.all
    rw [fold_while_eq_scalar, fold_while_eq_scalar]
    exact fold_while_scalar_fst_congr _ m a b true false _
  · show (SliceIter.any ⟨m, a, b, true⟩ p).1 = (SliceIter.any ⟨m, a, b, false⟩ p).1
    unfold SliceIter.any SliceIter.all
    simp only
    rw [fold_while_eq_scalar, fold_while_eq_scalar,
      fold_while_scalar_fst_congr _ m a b true false]
  · show (SliceIter.find ⟨m, a, b, true⟩ p).1 = (SliceIter.find ⟨m, a, b, false⟩ p).1
    unfold SliceIter.find
    rw [fold_while_eq_scalar, fold_while_eq_scalar]
    exact fold_while_scalar_fst_congr _ m a b true false _
  · show (SliceIter.position ⟨m, a, b, true⟩ p).1
        = (SliceIter.position ⟨m, a, b, false⟩ p).1
    unfold SliceIter.position
    simp only
    rw [fold_while_eq_scalar, fold_while_eq_scalar,
      fold_while_scalar_fst_congr _ m a b true false]
  · show (SliceIter.rposition ⟨m, a, b, true⟩ p).1
        = (SliceIter.rposition ⟨m, a, b, false⟩ p).1
    unfold SliceIter.rposition
    simp only [SliceIter.len]
    rw [rfold_while_eq_scalar, rfold_while_eq_scalar,
      rfold_while_scalar_fst_congr _ m a b true false]

/-- C3: `rposition` returns the 0-based forward-orientation index of the
last element of the remaining data satisfying the predicate — an index
`i` below the remaining length whose element matches and after which no
element matches — or `none` exactly when no element matches. -/
theorem claim3_rposition_last_match [Inhabited α] (s : SliceIter α)
    (p : α → Bool) (hw : s.Wf) :
    (∀ i, (s.rposition p).1 = some i →
        i < s.len ∧ p (s.as_slice.getD i default) = true ∧
        ∀ j, i < j → j < s.len → p (s.as_slice.getD j default) = false) ∧
    ((s.rposition p).1 = none →
        ∀ j, j < s.len → p (s.as_slice.getD j default) = false) := by
  have hlen : s.as_slice.length = s.len := SliceIter.as_slice_length hw
  rw [SliceIter.rposition_fst _ _ hw]
  constructor
  · intro i hsome
    obtain ⟨h1, h2, h3⟩ := scanRposition_some p s.as_slice i hsome
    exact ⟨by omega, h2, fun j hij hj => h3 j hij (by omega)⟩
  · intro hnone j hj
    exact scanRposition_none p s.as_slice hnone j (by omega)

/-- Witness for C3: last odd element of `[1, 3, 2, 5, 4, 6]` sits at
forward index 3, under the 4-wide strategy. -/
theorem claim3_witness :
    (⟨[1, 3, 2, 5, 4, 6], 0, 6, true⟩ : SliceIter Nat).Wf ∧
    ((⟨[1, 3, 2, 5, 4, 6], 0, 6, true⟩ : SliceIter Nat).rposition
        (fun x => x % 2 == 1)).1 = some 3 ∧
    (3 < (⟨[1, 3, 2, 5, 4, 6], 0, 6, true⟩ : SliceIter Nat).len ∧
      (fun x => x % 2 == 1)
          ((⟨[1, 3, 2, 5, 4, 6], 0, 6, true⟩ : SliceIter Nat).as_slice.getD 3
            default) = true ∧
      ∀ j, 3 < j → j < (⟨[1, 3, 2, 5, 4, 6], 0, 6, true⟩ : SliceIter Nat).len →
        (fun x => x % 2 == 1)
            ((⟨[1, 3, 2, 5, 4, 6], 0, 6, true⟩ : SliceIter Nat).as_slice.getD j
              default) = false) := by
  have hw : (⟨[1, 3, 2, 5, 4, 6], 0, 6, true⟩ : SliceIter Nat).Wf := by decide
  have hr : ((⟨[1, 3, 2, 5, 4, 6], 0, 6, true⟩ : SliceIter Nat).rposition
      (fun x => x % 2 == 1)).1 = some 3 := by
    rw [SliceIter.rposition_fst _ _ hw]; decide
  exact ⟨hw, hr, (claim3_rposition_last_match _ _ hw).1 3 hr⟩

/-- C4 counterexample: constructing from a slice does not succeed for
*every* element type — for a zero-sized element type (`size_of::<T>() = 0`,
here the explicit size argument 0) the construction panics
(`assert!(size_of::<T>() != 0)` in `SliceIter::new`, reached from
`From<&[T]>`), modelled as `none`. -/
theorem claim4_counterexample :
    fromSlice 0 [(0 : Nat)] = none := rfl

/-- C4 (amended): constructing a `SliceIter` from a slice succeeds for
every slice of every element type of nonzero size (including the empty
slice), with `end` computed as `start + count`; the well-formed iterator
covers exactly the slice. -/
theorem claim4_from_slice_construct (sz : Nat) (l : List α) (hsz : sz ≠ 0) :
    ∃ t : SliceIter α, fromSlice sz l = some t ∧
      t.ptr = 0 ∧ t.ende = t.ptr + l.length ∧ t.Wf ∧
      t.as_slice = l ∧ t.len = l.length := by
  refine ⟨⟨l, 0, 0 + l.length, false⟩, ?_, rfl, by simp, ⟨by simp, by simp⟩, ?_, ?_⟩
  · simp [fromSlice, SliceIter.new, hsz]
  · show ((l.drop 0).take ((0 + l.length) - 0)) = l
    simp
  · show (0 + l.length) - 0 = l.length
    simp

/-- Witness for C4: element size 4 (e.g. `i32`) and a two-element slice. -/
theorem claim4_witness :
    (4 : Nat) ≠ 0 ∧
    ∃ t : SliceIter Nat, fromSlice 4 [3, 1] = some t ∧
      t.ptr = 0 ∧ t.ende = t.ptr + [3, 1].length ∧ t.Wf ∧
      t.as_slice = [3, 1] ∧ t.len = [3, 1].length :=
  ⟨by decide, claim4_from_slice_construct 4 [3, 1] (by decide)⟩

/-- C5: a checked forward or backward step on a non-empty well-formed
iterator decreases the remaining length by exactly 1 (the length is a
natural number, so it can never go negative), and stepping an empty
iterator in either direction returns `none` and leaves the state — hence
the length — unchanged. -/
theorem claim5_step_length [Inhabited α] (s : SliceIter α) (hw : s.Wf) :
    (0 < s.len → s.next.2.len + 1 = s.len ∧ s.next_back.2.len + 1 = s.len) ∧
    (s.len = 0 → s.next = (none, s) ∧ s.next_back = (none, s)) := by
  obtain ⟨h1, h2⟩ := hw
  constructor
  · intro hpos
    have hne : s.ptr ≠ s.ende := by
      unfold SliceIter.len at hpos; omega
    unfold SliceIter.next SliceIter.next_back
    rw [if_pos hne, if_pos hne]
    unfold SliceIter.len at hpos ⊢
    simp only [SliceIter.stepf, SliceIter.stepb]
    omega
  · intro h0
    have heq : ¬ s.ptr ≠ s.ende := by
      unfold SliceIter.len at h0; omega
    unfold SliceIter.next SliceIter.next_back
    rw [if_neg heq, if_neg heq]
    exact ⟨rfl, rfl⟩

/-- Witness for C5: a two-element iterator steps down to length 1 from
either end, and the empty default-like state is a no-op. -/
theorem claim5_witness :
    (⟨[7, 8], 0, 2, false⟩ : SliceIter Nat).Wf ∧
    ((⟨[7, 8], 0, 2, false⟩ : SliceIter Nat).next.2.len + 1
        = (⟨[7, 8], 0, 2, false⟩ : SliceIter Nat).len ∧
      (⟨[7, 8], 0, 2, false⟩ : SliceIter Nat).next_back.2.len + 1
        = (⟨[7, 8], 0, 2, false⟩ : SliceIter Nat).len) ∧
    ((⟨[], 1, 1, false⟩ : SliceIter Nat).next
        = (none, (⟨[], 1, 1, false⟩ : SliceIter Nat)) ∧
      (⟨[], 1, 1, false⟩ : SliceIter Nat).next_back
        = (none, (⟨[], 1, 1, false⟩ : SliceIter Nat))) :=
  ⟨by decide,
    (claim5_step_length (⟨[7, 8], 0, 2, false⟩ : SliceIter Nat) (by decide)).1
      (by decide),
    (claim5_step_length (⟨[], 1, 1, false⟩ : SliceIter Nat) (by decide)).2
      (by decide)⟩

/-- C6: the default (empty, sentinel-address) `SliceIter` is a
well-formed, exhausted, no-op iterator for all operations at either
strategy: length 0; `next`, `next_back` return `none` and leave it
unchanged; `peek_next`, `find`, `position`, `rposition` return `none`;
`all` is `true` and `any` is `false`. -/
theorem claim6_default_noop [Inhabited α] (un : Bool) (p : α → Bool) :
    (SliceIter.defaultValue un : SliceIter α).Wf ∧
    (SliceIter.defaultValue un : SliceIter α).len = 0 ∧
    (SliceIter.defaultValue un : SliceIter α).next
      = (none, SliceIter.defaultValue un) ∧
    (SliceIter.defaultValue un : SliceIter α).next_back
      = (none, SliceIter.defaultValue un) ∧
    (SliceIter.defaultValue un : SliceIter α).peek_next = none ∧
    ((SliceIter.defaultValue un : SliceIter α).find p).1 = none ∧
    ((SliceIter.defaultValue un : SliceIter α).position p).1 = none ∧
    ((SliceIter.defaultValue un : SliceIter α).rposition p).1 = none ∧
    ((SliceIter.defaultValue un : SliceIter α).all p).1 = true ∧
    ((SliceIter.defaultValue un : SliceIter α).any p).1 = false := by
  have hempty : (SliceIter.defaultValue un : SliceIter α).ende
      ≤ (SliceIter.defaultValue un : SliceIter α).ptr := le_rfl
  refine ⟨⟨le_rfl, fun h => absurd h (lt_irrefl 1)⟩, rfl, ?_, ?_, rfl, ?_, ?_, ?_, ?_, ?_⟩
  · unfold SliceIter.next
    rw [if_neg (by simp [SliceIter.defaultValue])]
  · unfold SliceIter.next_back
    rw [if_neg (by simp [SliceIter.defaultValue])]
  · unfold SliceIter.find
    rw [fold_while_empty _ hempty]
  · unfold SliceIter.position
    simp only
    rw [fold_while_empty _ hempty]
  · unfold SliceIter.rposition
    simp only
    rw [rfold_while_empty _ hempty]
  · unfold SliceIter.all
    rw [fold_while_empty _ hempty]
  · unfold SliceIter.any SliceIter.all
    simp only
    rw [fold_while_empty _ hempty]
    rfl

/-- C7: checked indexed access returns the i-th remaining element when
`i < element-count` (never touching memory outside the remaining
sub-slice), and fails fast — panics, modelled as `none` — when
`i >= element-count`. -/
theorem claim7_checked_index [Inhabited α] (s : SliceIter α) (i : Nat)
    (hw : s.Wf) :
    (i < s.len → s.index i = some (s.as_slice.getD i default)) ∧
    (s.len ≤ i → s.index i = none) := by
  constructor
  · intro hi
    unfold SliceIter.index
    rw [if_pos hi]
    congr 1
    rw [List.getD_eq_getElem?_getD, List.getD_eq_getElem?_getD]
    unfold SliceIter.as_slice
    rw [List.getElem?_take_of_lt hi, List.getElem?_drop]
  · intro hi
    unfold SliceIter.index
    rw [if_neg (by omega)]

/-- Witness for C7: index 1 of the remaining sub-slice `[5, 6]` is `6`,
and index 2 is out of range. -/
theorem claim7_witness :
    (⟨[4, 5, 6], 1, 3, false⟩ : SliceIter Nat).Wf ∧
    (⟨[4, 5, 6], 1, 3, false⟩ : SliceIter Nat).index 1
      = some ((⟨[4, 5, 6], 1, 3, false⟩ : SliceIter Nat).as_slice.getD 1 default) ∧
    (⟨[4, 5, 6], 1, 3, false⟩ : SliceIter Nat).index 2 = none :=
  ⟨by decide,
    (claim7_checked_index (⟨[4, 5, 6], 1, 3, false⟩ : SliceIter Nat) 1
      (by decide)).1 (by decide),
    (claim7_checked_index (⟨[4, 5, 6], 1, 3, false⟩ : SliceIter Nat) 2
      (by decide)).2 (by decide)⟩

/-- C8: `any(predicate)` is exactly `not all(not predicate)` (this is its
definition in the source, so it holds for every state and strategy), and
on an empty range `all` is vacuously `true` and `any` is `false`. -/
theorem claim8_any_all_duality [Inhabited α] (s : SliceIter α) (p : α → Bool) :
    (s.any p).1 = !(s.all (fun x => !p x)).1 ∧
    (s.len = 0 → (s.all p).1 = true ∧ (s.any p).1 = false) := by
  refine ⟨rfl, ?_⟩
  intro h0
  have hempty : s.ende ≤ s.ptr := by unfold SliceIter.len at h0; omega
  unfold SliceIter.any SliceIter.all
  simp only
  rw [fold_while_empty _ hempty, fold_while_empty _ hempty]
  exact ⟨rfl, rfl⟩

/-- Witness for C8 on an empty sub-slice in the middle of a buffer. -/
theorem claim8_witness :
    ((⟨[3, 4], 1, 1, false⟩ : SliceIter Nat).any (fun x => x == 3)).1
      = !((⟨[3, 4], 1, 1, false⟩ : SliceIter Nat).all (fun x => !(x == 3))).1 ∧
    ((⟨[3, 4], 1, 1, false⟩ : SliceIter Nat).all (fun x => x == 3)).1 = true ∧
    ((⟨[3, 4], 1, 1, false⟩ : SliceIter Nat).any (fun x => x == 3)).1 = false := by
  have h := claim8_any_all_duality (⟨[3, 4], 1, 1, false⟩ : SliceIter Nat)
    (fun x => x == 3)
  exact ⟨h.1, h.2 (by decide)⟩

/-- C9: converting any well-formed iterator to a contiguous view with
`as_slice` and re-constructing an iterator from that view (at any nonzero
element size) yields an iterator with identical remaining elements and
identical remaining length. -/
theorem claim9_roundtrip_view [Inhabited α] (s : SliceIter α) (sz : Nat)
    (hw : s.Wf) (hsz : sz ≠ 0) :
    ∃ t : SliceIter α, fromSlice sz s.as_slice = some t ∧
      t.as_slice = s.as_slice ∧ t.len = s.len ∧ t.Wf := by
  refine ⟨⟨s.as_slice, 0, 0 + s.as_slice.length, false⟩, ?_, ?_, ?_, by simp, by simp⟩
  · simp [fromSlice, SliceIter.new, hsz]
  · show ((s.as_slice.drop 0).take ((0 + s.as_slice.length) - 0)) = s.as_slice
    simp
  · show (0 + s.as_slice.length) - 0 = s.len
    simp [SliceIter.as_slice_length hw]

/-- Witness for C9 at a concrete sub-slice under the 4-wide strategy. -/
theorem claim9_witness :
    (⟨[1, 2, 3, 4], 1, 3, true⟩ : SliceIter Nat).Wf ∧ (1 : Nat) ≠ 0 ∧
    ∃ t : SliceIter Nat,
      fromSlice 1 (⟨[1, 2, 3, 4], 1, 3, true⟩ : SliceIter Nat).as_slice = some t ∧
      t.as_slice = (⟨[1, 2, 3, 4], 1, 3, true⟩ : SliceIter Nat).as_slice ∧
      t.len = (⟨[1, 2, 3, 4], 1, 3, true⟩ : SliceIter Nat).len ∧ t.Wf :=
  ⟨by decide, by decide,
    claim9_roundtrip_view (⟨[1, 2, 3, 4], 1, 3, true⟩ : SliceIter Nat) 1
      (by decide) (by decide)⟩

/-- C10: under either unrolling strategy, when `position` exits early
with `Some i` the iterator has consumed exactly the `i + 1` elements it
visited: the remaining length plus `i + 1` equals the original length —
even when the early exit occurs in the middle of a 4-wide batch. -/
theorem claim10_position_consumes_exactly [Inhabited α] (s : SliceIter α)
    (p : α → Bool) (i : Nat) (h : (s.position p).1 = some i) :
    (s.position p).2.len + (i + 1) = s.len := by
  unfold SliceIter.position at h ⊢
  simp only at h ⊢
  rw [fold_while_eq_scalar] at h ⊢
  have hst := (fold_while_scalar_position_state p (s.ende - s.ptr) s rfl 0 i h).2
  simpa using hst

/-- Witness for C10: with the 4-wide strategy, the match at forward index
5 is found in the middle of the second batch; exactly 6 elements are
consumed out of 11. -/
theorem claim10_witness :
    ((⟨[0, 0, 0, 0, 0, 1, 0, 0, 0, 0, 0], 0, 11, true⟩ : SliceIter Nat).position
        (fun x => x == 1)).1 = some 5 ∧
    ((⟨[0, 0, 0, 0, 0, 1, 0, 0, 0, 0, 0], 0, 11, true⟩ : SliceIter Nat).position
        (fun x => x == 1)).2.len + (5 + 1)
      = (⟨[0, 0, 0, 0, 0, 1, 0, 0, 0, 0, 0], 0, 11, true⟩ : SliceIter Nat).len := by
  have h : ((⟨[0, 0, 0, 0, 0, 1, 0, 0, 0, 0, 0], 0, 11, true⟩ : SliceIter Nat).position
      (fun x => x == 1)).1 = some 5 := by
    rw [SliceIter.position_fst _ _ (by decide)]
    decide
  exact ⟨h, claim10_position_consumes_exactly _ _ _ h⟩

end Rawslice
